import Mathlib

/-!
Verification development for the Lil-Task-X planning and feasibility engine.

Part 1 embeds the feasibility evaluator of the frontend
(`AddProductModal.tsx`, function `evaluate`) and the budget CSV
construction of `PMAnalysisNew.tsx` (`handleRunAnalysis`).
JavaScript numbers are modelled as exact rationals (`ℚ`);
`Math.ceil` is modelled by `Int.ceil`.  The reason strings pushed by
`evaluate` are modelled by an inductive `Reason` whose constructors carry
exactly the numeric values interpolated into the corresponding string.
-/

inductive Complexity
  | low
  | medium
  | high
  deriving DecidableEq

structure ProductFormData where
  budgetAmount : Option ℚ
  timelineWeeks : Option ℚ
  headcount : Option ℚ
  scopeComplexity : Option Complexity

inductive Verdict
  | realistic
  | unrealistic
  deriving DecidableEq

/-- The reasons pushed by `evaluate`, one constructor per `reasons.push`
site, carrying the values interpolated into the message string. -/
inductive Reason
  | noHeadcount
  | timelineMissing
  | budgetMissing
  | timelineTooShort (complexity : Complexity) (minWeeks : ℚ)
  | budgetTooLow (totalCost budget : ℚ)
  deriving DecidableEq

structure Estimates where
  weeklyCost : ℚ
  totalCost : ℚ
  minWeeks : ℚ
  deriving DecidableEq

structure Evaluation where
  verdict : Verdict
  reasons : List Reason
  estimates : Estimates
  deriving DecidableEq

/-- `form.budgetAmount ?? 0` -/
def budgetOf (f : ProductFormData) : ℚ := f.budgetAmount.getD 0

/-- `form.timelineWeeks ?? 0` -/
def weeksOf (f : ProductFormData) : ℚ := f.timelineWeeks.getD 0

/-- `form.headcount ?? 0` -/
def peopleOf (f : ProductFormData) : ℚ := f.headcount.getD 0

/-- `form.scopeComplexity ?? "medium"` -/
def complexityOf (f : ProductFormData) : Complexity :=
  f.scopeComplexity.getD Complexity.medium

def hourlyRate : ℚ := 75

def hoursPerWeekPerDev : ℚ := 30

/-- `weeklyCost = people * hoursPerWeekPerDev * hourlyRate` -/
def weeklyCostOf (f : ProductFormData) : ℚ :=
  peopleOf f * hoursPerWeekPerDev * hourlyRate

/-- `minWeeksByComplexity = { low: 2, medium: 6, high: 12 }` -/
def minWeeksByComplexity : Complexity → ℚ
  | Complexity.low => 2
  | Complexity.medium => 6
  | Complexity.high => 12

/-- `complexity === "low" ? 0.8 : complexity === "high" ? 1.4 : 1.0` -/
def complexityMultiplier : Complexity → ℚ
  | Complexity.low => 0.8
  | Complexity.high => 1.4
  | Complexity.medium => 1.0

def minWeeksOf (f : ProductFormData) : ℚ :=
  minWeeksByComplexity (complexityOf f)

/-- `adjustedWeeks = Math.ceil((weeks || 0) * complexityMultiplier)`.
For rational values `weeks || 0` coincides with `weeks`
(the only falsy number the form can produce is `0` itself). -/
def adjustedWeeksOf (f : ProductFormData) : ℤ :=
  Int.ceil (weeksOf f * complexityMultiplier (complexityOf f))

/-- `totalCost = weeklyCost * adjustedWeeks` -/
def totalCostOf (f : ProductFormData) : ℚ :=
  weeklyCostOf f * (adjustedWeeksOf f : ℚ)

/-- The `reasons` array built by `evaluate`, in push order. -/
def evalReasons (f : ProductFormData) : List Reason :=
  (if peopleOf f ≤ 0 then [Reason.noHeadcount] else []) ++
  (if weeksOf f ≤ 0 then [Reason.timelineMissing] else []) ++
  (if budgetOf f ≤ 0 then [Reason.budgetMissing] else []) ++
  (if 0 < weeksOf f ∧ weeksOf f < minWeeksOf f then
    [Reason.timelineTooShort (complexityOf f) (minWeeksOf f)] else []) ++
  (if 0 < budgetOf f ∧ budgetOf f < totalCostOf f then
    [Reason.budgetTooLow (totalCostOf f) (budgetOf f)] else [])

/-- The frontend `evaluate` function (`AddProductModal.tsx`). -/
def evaluate (f : ProductFormData) : Evaluation :=
  { verdict := if (evalReasons f).isEmpty then Verdict.realistic else Verdict.unrealistic
    reasons := evalReasons f
    estimates :=
      { weeklyCost := weeklyCostOf f
        totalCost := totalCostOf f
        minWeeks := minWeeksOf f } }

/-- All numeric values a `Reason` carries (the numbers interpolated into
the corresponding message string). -/
def reasonNumbers : Reason → List ℚ
  | Reason.timelineTooShort _ m => [m]
  | Reason.budgetTooLow t b => [t, b]
  | _ => []

/-- Every numeric value occurring anywhere in an `Evaluation`: the three
estimate fields plus the numbers carried by the reason messages. -/
def reportedNumbers (e : Evaluation) : List ℚ :=
  [e.estimates.weeklyCost, e.estimates.totalCost, e.estimates.minWeeks] ++
    (e.reasons.map reasonNumbers).flatten

/-- Over-budget-only input: headcount 2, eight weeks, medium scope,
budget 30000; estimated total cost is 36000. -/
def cexOverBudget : ProductFormData :=
  { budgetAmount := some 30000
    timelineWeeks := some 8
    headcount := some 2
    scopeComplexity := some Complexity.medium }

/-- Input where the timeline and the budget condition fail together:
three weeks of medium scope (minimum six) and budget 10000 against an
estimated total cost of 13500. -/
def cexCombined : ProductFormData :=
  { budgetAmount := some 10000
    timelineWeeks := some 3
    headcount := some 2
    scopeComplexity := some Complexity.medium }

/-- Input with a strictly negative headcount. -/
def cexNegHeadcount : ProductFormData :=
  { budgetAmount := some 100000
    timelineWeeks := some 8
    headcount := some (-1)
    scopeComplexity := some Complexity.medium }

/-- Input with headcount exactly zero. -/
def wDegenerate : ProductFormData :=
  { budgetAmount := some 100000
    timelineWeeks := some 8
    headcount := some 0
    scopeComplexity := some Complexity.medium }

/-!
The budget CSV built by `handleRunAnalysis` (`PMAnalysisNew.tsx`).
Each row is a category name paired with either a numeric amount or the
boolean flag row (`Gemini API Available,False`).
-/

inductive CsvValue
  | num (q : ℚ)
  | flag (b : Bool)
  deriving DecidableEq

/-- The rows of `budgetCsvContent`, in source order, for a user-entered
budget amount `b`. -/
def budgetCsvRows (b : ℚ) : List (String × CsvValue) :=
  [("Engineering Budget (USD)", CsvValue.num (b * 0.6)),
   ("QA Budget (USD)", CsvValue.num (b * 0.25)),
   ("Cloud Services Budget (USD)", CsvValue.num (b * 0.1)),
   ("Licensing & Tools Budget (USD)", CsvValue.num (b * 0.03)),
   ("Gemini API Available", CsvValue.flag false),
   ("Gemini API Monthly Cost (USD)", CsvValue.num 100),
   ("Firebase Auth Monthly Cost (USD)", CsvValue.num 50),
   ("Security/Compliance Budget (USD)", CsvValue.num (b * 0.01)),
   ("Training & Upskilling Budget (USD)", CsvValue.num (b * 0.005)),
   ("Emergency Contingency Reserve (USD)", CsvValue.num (b * 0.005))]

def rowNumeric : CsvValue → Option ℚ
  | CsvValue.num q => some q
  | CsvValue.flag _ => none

def csvNumericTotal (rows : List (String × CsvValue)) : ℚ :=
  (rows.filterMap (fun r => rowNumeric r.2)).sum

/-- The seven budget-dependent fractions appearing in `budgetCsvContent`. -/
def budgetCoefficients : List ℚ := [0.6, 0.25, 0.1, 0.03, 0.01, 0.005, 0.005]

/-!
Part 2 — the Planning & Feasibility Engine of the backend (`app/` in the
repository's Dockerfile).  That code is not among the provided sources;
only its HTTP callers (`PMAnalysisNew.tsx`) are, so the components below
are modelled from the spec, as each doc comment records.
-/

/-- Modelled from the spec: `StaffMember` (§3 data model); the backend
`app/` that holds the engine is not among the provided sources. -/
structure StaffMember where
  name : String
  role : String
  skills : List String
  hourly_rate : ℚ
  capacity_hours : ℚ
  deriving DecidableEq, Inhabited

/-- Modelled from the spec: the task record produced by the Task
Synthesizer (§3, §4.1) before allocation; `tags` are the skill tags used
for the skill-overlap score of §4.2.  The backend `app/` is not among the
provided sources. -/
structure SpecTask where
  id : ℕ
  feature_ref : String
  tags : List String
  estimated_hours : ℚ
  sprint_index : ℕ
  priority : ℕ
  deriving DecidableEq, Inhabited

/-- Modelled from the spec: a task after the Staffing Allocator ran
(§4.2): an optional roster index and the derived salary cost. -/
structure Assignment where
  task : SpecTask
  assignee_ref : Option ℕ
  salary_cost : ℚ
  deriving DecidableEq

/-- Modelled from the spec: the deterministic task order of §4.2 —
priority descending, then sprint index ascending, then estimated hours
descending. -/
def taskBefore (a b : SpecTask) : Bool :=
  if a.priority ≠ b.priority then decide (b.priority < a.priority)
  else if a.sprint_index ≠ b.sprint_index then decide (a.sprint_index < b.sprint_index)
  else decide (b.estimated_hours ≤ a.estimated_hours)

def insertTask (t : SpecTask) : List SpecTask → List SpecTask
  | [] => [t]
  | u :: us => if taskBefore t u then t :: u :: us else u :: insertTask t us

/-- Modelled from the spec: stable insertion sort by `taskBefore`
(§4.2 sorts tasks for determinism). -/
def sortTasks : List SpecTask → List SpecTask
  | [] => []
  | t :: ts => insertTask t (sortTasks ts)

/-- Modelled from the spec: skill-overlap score — count of matching tags
(§4.2). -/
def skillOverlap (t : SpecTask) (s : StaffMember) : ℕ :=
  (t.tags.filter (fun g => s.skills.contains g)).length

/-- Modelled from the spec: the roster indices whose remaining capacity
can absorb the task (§4.2).  `loads` maps a roster index to the hours
already assigned to that member. -/
def candidateIdx (t : SpecTask) (staff : List StaffMember) (loads : ℕ → ℚ) : List ℕ :=
  (List.range staff.length).filter
    (fun i => decide (loads i + t.estimated_hours ≤ (staff.getD i default).capacity_hours))

/-- Modelled from the spec: §4.2 tie-breaking — candidate `j` beats the
current best `b` when it has strictly higher skill overlap, or equal
overlap and strictly lower current load; on full ties the earlier roster
index (the current best) is kept. -/
def allocBetter (t : SpecTask) (staff : List StaffMember) (loads : ℕ → ℚ) (j b : ℕ) : Bool :=
  if skillOverlap t (staff.getD j default) ≠ skillOverlap t (staff.getD b default) then
    decide (skillOverlap t (staff.getD b default) < skillOverlap t (staff.getD j default))
  else decide (loads j < loads b)

/-- Modelled from the spec: select the best-fitting staff member among
the candidates with sufficient remaining capacity (§4.2). -/
def chooseStaff (t : SpecTask) (staff : List StaffMember) (loads : ℕ → ℚ) : Option ℕ :=
  (candidateIdx t staff loads).foldl
    (fun best j =>
      match best with
      | none => some j
      | some b => if allocBetter t staff loads j b then some j else some b)
    none

/-- Modelled from the spec: one allocation step (§4.2): the chosen member
is charged the task hours and the task is assigned at cost
`estimated_hours * hourly_rate`; with no fitting member the task is left
unassigned at cost zero. -/
def allocStep (staff : List StaffMember) (st : List Assignment × (ℕ → ℚ)) (t : SpecTask) :
    List Assignment × (ℕ → ℚ) :=
  match chooseStaff t staff st.2 with
  | none => (st.1 ++ [⟨t, none, 0⟩], st.2)
  | some i =>
      (st.1 ++ [⟨t, some i, t.estimated_hours * (staff.getD i default).hourly_rate⟩],
       fun k => if k = i then st.2 k + t.estimated_hours else st.2 k)

/-- Modelled from the spec: the Staffing Allocator (§4.2): fold the
allocation step over the deterministically sorted tasks, starting from an
empty assignment list and zero load everywhere. -/
def allocate (staff : List StaffMember) (tasks : List SpecTask) : List Assignment :=
  ((sortTasks tasks).foldl (allocStep staff) ([], fun _ => 0)).1

/-- Total estimated hours of the tasks an allocation assigns to roster
index `i`. -/
def assignedHours (asgs : List Assignment) (i : ℕ) : ℚ :=
  ((asgs.filter (fun a => decide (a.assignee_ref = some i))).map
    (fun a => a.task.estimated_hours)).sum

/-- Modelled from the spec: sum of the fixed budget line items (§3). -/
def lineItemsTotal (items : List (String × ℚ)) : ℚ := (items.map (fun r => r.2)).sum

/-- Modelled from the spec: the staffing part of the Budget Reconciler
(§4.3) — the sum of the costs of the assigned tasks. -/
def staffingCost (asgs : List Assignment) : ℚ :=
  ((asgs.filter (fun a => a.assignee_ref.isSome)).map (fun a => a.salary_cost)).sum

/-- Modelled from the spec: the Budget Reconciler total (§4.3): all
assigned task costs plus every fixed line item. -/
def reconcileTotal (asgs : List Assignment) (items : List (String × ℚ)) : ℚ :=
  staffingCost asgs + lineItemsTotal items

/-- Modelled from the spec: the verdict values of the Feasibility
Evaluator (§4.4). -/
inductive SpecVerdict
  | feasible
  | over_budget
  | over_capacity
  | over_budget_and_capacity
  deriving DecidableEq

def unassignedCount (asgs : List Assignment) : ℕ :=
  (asgs.filter (fun a => decide (a.assignee_ref = none))).length

def latestSprint (asgs : List Assignment) : ℕ :=
  (asgs.map (fun a => a.task.sprint_index)).foldl max 0

/-- Modelled from the spec: the read-only per-session input snapshot
(§6): tasks, roster, line items, budget ceiling and the deadline horizon
in sprints. -/
structure PlanInputs where
  tasks : List SpecTask
  staff : List StaffMember
  line_items : List (String × ℚ)
  budget : ℚ
  deadline : ℕ
  deriving DecidableEq

/-- Modelled from the spec: the Feasibility Evaluator (§4.4). -/
def specEvaluate (inputs : PlanInputs) (asgs : List Assignment) : SpecVerdict :=
  if reconcileTotal asgs inputs.line_items ≤ inputs.budget ∧
      (unassignedCount asgs = 0 ∧ latestSprint asgs ≤ inputs.deadline) then
    SpecVerdict.feasible
  else if unassignedCount asgs = 0 ∧ latestSprint asgs ≤ inputs.deadline then
    SpecVerdict.over_budget
  else if reconcileTotal asgs inputs.line_items ≤ inputs.budget then
    SpecVerdict.over_capacity
  else SpecVerdict.over_budget_and_capacity

/-- Modelled from the spec: the `Plan` aggregate (§3). -/
structure SpecPlan where
  assignments : List Assignment
  total_cost : ℚ
  remaining_budget : ℚ
  unassigned_tasks : ℕ
  feasibility_status : SpecVerdict
  budget : ℚ
  deadline : ℕ
  deriving DecidableEq

/-- Modelled from the spec: one full pipeline run (§2 data flow):
allocate, reconcile, evaluate. -/
def runPipeline (inputs : PlanInputs) : SpecPlan :=
  { assignments := allocate inputs.staff inputs.tasks
    total_cost := reconcileTotal (allocate inputs.staff inputs.tasks) inputs.line_items
    remaining_budget :=
      inputs.budget - reconcileTotal (allocate inputs.staff inputs.tasks) inputs.line_items
    unassigned_tasks := unassignedCount (allocate inputs.staff inputs.tasks)
    feasibility_status := specEvaluate inputs (allocate inputs.staff inputs.tasks)
    budget := inputs.budget
    deadline := inputs.deadline }

/-- Modelled from the spec: the closed intent set of §4.5; the mutating
instructions the claims exercise carry their parameter. -/
inductive Instruction
  | adjust_budget (v : ℚ)
  | adjust_deadline (d : ℕ)
  | confirm
  | review
  | general_query
  deriving DecidableEq

inductive SessionStatus
  | drafting
  | confirmed
  deriving DecidableEq

inductive SessionError
  | SessionLocked
  deriving DecidableEq

/-- Modelled from the spec: `Session` (§3). -/
structure Session where
  session_id : String
  inputs : PlanInputs
  current_plan : SpecPlan
  history : List Instruction
  status : SessionStatus
  deriving DecidableEq

/-- An instruction that mutates plan state or the session status. -/
def Instruction.isMutation : Instruction → Bool
  | Instruction.adjust_budget _ => true
  | Instruction.adjust_deadline _ => true
  | Instruction.confirm => true
  | Instruction.review => false
  | Instruction.general_query => false

/-- Modelled from the spec: the Revision Session reducer (§4.5, §3):
once `confirmed`, every mutation is rejected with `SessionLocked`;
otherwise the mutation is applied to a copy of the inputs, the pipeline
re-runs on the copy, and the instruction is appended to the history. -/
def applyInstruction (st : Session) (ins : Instruction) : Except SessionError Session :=
  if st.status = SessionStatus.confirmed ∧ ins.isMutation = true then
    Except.error SessionError.SessionLocked
  else
    match ins with
    | Instruction.adjust_budget v =>
        Except.ok { st with
          inputs := { st.inputs with budget := v },
          current_plan := runPipeline { st.inputs with budget := v },
          history := st.history ++ [Instruction.adjust_budget v] }
    | Instruction.adjust_deadline d =>
        Except.ok { st with
          inputs := { st.inputs with deadline := d },
          current_plan := runPipeline { st.inputs with deadline := d },
          history := st.history ++ [Instruction.adjust_deadline d] }
    | Instruction.confirm =>
        Except.ok { st with
          status := SessionStatus.confirmed,
          history := st.history ++ [Instruction.confirm] }
    | Instruction.review => Except.ok st
    | Instruction.general_query => Except.ok st

/-- A small concrete roster used by witnesses. -/
def wStaff : List StaffMember :=
  [{ name := "John Doe", role := "Senior Frontend Engineer",
     skills := ["frontend", "react"], hourly_rate := 85, capacity_hours := 160 },
   { name := "Alice Williams", role := "Senior QA Engineer",
     skills := ["qa", "testing"], hourly_rate := 80, capacity_hours := 160 }]

/-- Two frontend tasks totalling 200 hours — more than one member's
160-hour capacity. -/
def wTasks : List SpecTask :=
  [{ id := 1, feature_ref := "auth", tags := ["frontend"], estimated_hours := 120,
     sprint_index := 1, priority := 2 },
   { id := 2, feature_ref := "auth", tags := ["frontend"], estimated_hours := 80,
     sprint_index := 2, priority := 1 }]

def wLineItems : List (String × ℚ) := [("Cloud Services Budget (USD)", 1000)]

def wInputs : PlanInputs :=
  { tasks := wTasks, staff := wStaff, line_items := wLineItems,
    budget := 100000, deadline := 8 }

def wSessionDrafting : Session :=
  { session_id := "s1", inputs := wInputs, current_plan := runPipeline wInputs,
    history := [], status := SessionStatus.drafting }

def wSessionConfirmed : Session :=
  { session_id := "s1", inputs := wInputs, current_plan := runPipeline wInputs,
    history := [Instruction.confirm], status := SessionStatus.confirmed }

/-- The allocator invariant carried through the fold: the load table
agrees with the hours actually assigned, and every load respects the
member's capacity ceiling. -/
def AllocInv (staff : List StaffMember) (st : List Assignment × (ℕ → ℚ)) : Prop :=
  (∀ i, assignedHours st.1 i = st.2 i) ∧
  (∀ i, i < staff.length → st.2 i ≤ (staff.getD i default).capacity_hours)

/-! ### Helper lemmas about `evaluate` -/

lemma verdict_cases (v : Verdict) : v = Verdict.realistic ∨ v = Verdict.unrealistic := by
  cases v
  · exact Or.inl rfl
  · exact Or.inr rfl

lemma evaluate_totalCost (f : ProductFormData) :
    (evaluate f).estimates.totalCost = totalCostOf f := rfl

lemma evaluate_reasons (f : ProductFormData) :
    (evaluate f).reasons = evalReasons f := rfl

lemma evaluate_verdict (f : ProductFormData) :
    (evaluate f).verdict =
      if (evalReasons f).isEmpty then Verdict.realistic else Verdict.unrealistic := rfl

lemma evalReasons_eq_nil_iff (f : ProductFormData) :
    evalReasons f = [] ↔
      0 < peopleOf f ∧ 0 < weeksOf f ∧ 0 < budgetOf f ∧
      minWeeksOf f ≤ weeksOf f ∧ totalCostOf f ≤ budgetOf f := by
  have step : evalReasons f = [] ↔
      ¬ peopleOf f ≤ 0 ∧ ¬ weeksOf f ≤ 0 ∧ ¬ budgetOf f ≤ 0 ∧
      ¬ (0 < weeksOf f ∧ weeksOf f < minWeeksOf f) ∧
      ¬ (0 < budgetOf f ∧ budgetOf f < totalCostOf f) := by
    unfold evalReasons
    split_ifs with h1 h2 h3 h4 h5 <;> simp_all
  rw [step]
  constructor
  · rintro ⟨h1, h2, h3, h4, h5⟩
    refine ⟨not_le.mp h1, not_le.mp h2, not_le.mp h3, ?_, ?_⟩
    · exact not_lt.mp fun hlt => h4 ⟨not_le.mp h2, hlt⟩
    · exact not_lt.mp fun hlt => h5 ⟨not_le.mp h3, hlt⟩
  · rintro ⟨hp, hw, hb, hmw, htc⟩
    refine ⟨not_le.mpr hp, not_le.mpr hw, not_le.mpr hb, ?_, ?_⟩
    · rintro ⟨-, hlt⟩
      exact absurd hmw (not_le.mpr hlt)
    · rintro ⟨-, hlt⟩
      exact absurd htc (not_le.mpr hlt)

lemma evaluate_realistic_iff_nil (f : ProductFormData) :
    (evaluate f).verdict = Verdict.realistic ↔ evalReasons f = [] := by
  rw [evaluate_verdict]
  by_cases h : evalReasons f = []
  · simp [h]
  · have hfalse : (evalReasons f).isEmpty = false := by
      cases hE : evalReasons f
      · exact absurd hE h
      · rfl
    simp [hfalse, h]

lemma minWeeksOf_ge_two (f : ProductFormData) : (2 : ℚ) ≤ minWeeksOf f := by
  unfold minWeeksOf
  cases complexityOf f <;> norm_num [minWeeksByComplexity]

lemma weeksOf_pos_of_min (f : ProductFormData) (hmw : minWeeksOf f ≤ weeksOf f) :
    0 < weeksOf f :=
  lt_of_lt_of_le (by norm_num) (le_trans (minWeeksOf_ge_two f) hmw)

lemma totalCostOf_pos (f : ProductFormData) (hp : 0 < peopleOf f)
    (hmw : minWeeksOf f ≤ weeksOf f) : 0 < totalCostOf f := by
  have hw0 : (0 : ℚ) < weeksOf f := weeksOf_pos_of_min f hmw
  have hm0 : (0 : ℚ) < complexityMultiplier (complexityOf f) := by
    cases complexityOf f <;> norm_num [complexityMultiplier]
  have hx : (0 : ℚ) < weeksOf f * complexityMultiplier (complexityOf f) :=
    mul_pos hw0 hm0
  have hceil : (0 : ℚ) < (adjustedWeeksOf f : ℚ) := by
    unfold adjustedWeeksOf
    exact lt_of_lt_of_le hx (Int.le_ceil _)
  have hweek : (0 : ℚ) < weeklyCostOf f := by
    unfold weeklyCostOf hoursPerWeekPerDev hourlyRate
    exact mul_pos (mul_pos hp (by norm_num)) (by norm_num)
  unfold totalCostOf
  exact mul_pos hweek hceil

/-! ### Claim theorems on the frontend evaluator -/

/-- Claim C1: the verdict is the favourable one (`realistic`) if and only
if the estimated total cost is within the supplied budget, work is staffed
(positive headcount), and the timeline fits the minimum horizon for the
chosen scope; whenever any of these fails the verdict is the unfavourable
one, the type having exactly the two values. -/
theorem feasibility_verdict_iff (f : ProductFormData) :
    ((evaluate f).verdict = Verdict.realistic ↔
      (evaluate f).estimates.totalCost ≤ budgetOf f ∧
      0 < peopleOf f ∧ minWeeksOf f ≤ weeksOf f) ∧
    ((evaluate f).verdict = Verdict.realistic ∨ (evaluate f).verdict = Verdict.unrealistic) := by
  refine ⟨?_, verdict_cases _⟩
  rw [evaluate_realistic_iff_nil, evalReasons_eq_nil_iff, evaluate_totalCost]
  constructor
  · rintro ⟨hp, hw, hb, hmw, htc⟩
    exact ⟨htc, hp, hmw⟩
  · rintro ⟨htc, hp, hmw⟩
    have htpos := totalCostOf_pos f hp hmw
    exact ⟨hp, weeksOf_pos_of_min f hmw, lt_of_lt_of_le htpos htc, hmw, htc⟩

/-- Claim C2 counterexample: on an input whose only blocker is cost
(headcount 2, eight weeks of medium scope, budget 30000 against an
estimated 36000), the evaluation output carries the total cost and the
budget but no value equal to the minimum budget increase
`total_cost - budget = 6000`: no minimum single-lever adjustment is
reported anywhere in the output. -/
theorem min_budget_increase_not_reported :
    (evaluate cexOverBudget).reasons = [Reason.budgetTooLow 36000 30000] ∧
    (evaluate cexOverBudget).estimates.totalCost - budgetOf cexOverBudget = 6000 ∧
    (6000 : ℚ) ∉ reportedNumbers (evaluate cexOverBudget) := by
  refine ⟨?_, ?_, ?_⟩ <;>
    norm_num [evaluate, evalReasons, budgetOf, weeksOf, peopleOf, complexityOf, minWeeksOf,
      totalCostOf, weeklyCostOf, adjustedWeeksOf, complexityMultiplier, minWeeksByComplexity,
      hourlyRate, hoursPerWeekPerDev, cexOverBudget, reportedNumbers, reasonNumbers]

/-- Claim C2 (amended): when cost is the sole blocker, the evaluation
reports the estimated total cost and the supplied budget (from which the
needed increase is derivable) in a single budget-too-low reason, and the
verdict is unfavourable; no explicit minimum-adjustment figure such as
`total_cost - budget` is computed. -/
theorem over_budget_reason_reports_cost_and_budget (f : ProductFormData)
    (hp : 0 < peopleOf f) (hmw : minWeeksOf f ≤ weeksOf f)
    (hb : 0 < budgetOf f) (hover : budgetOf f < totalCostOf f) :
    (evaluate f).reasons = [Reason.budgetTooLow (totalCostOf f) (budgetOf f)] ∧
    (evaluate f).verdict = Verdict.unrealistic := by
  have h1 : ¬ peopleOf f ≤ 0 := not_le.mpr hp
  have h2 : ¬ weeksOf f ≤ 0 := not_le.mpr (weeksOf_pos_of_min f hmw)
  have h3 : ¬ budgetOf f ≤ 0 := not_le.mpr hb
  have h4 : ¬ (0 < weeksOf f ∧ weeksOf f < minWeeksOf f) := by
    rintro ⟨-, hlt⟩
    exact absurd hmw (not_le.mpr hlt)
  have hreasons : evalReasons f = [Reason.budgetTooLow (totalCostOf f) (budgetOf f)] := by
    unfold evalReasons
    rw [if_neg h1, if_neg h2, if_neg h3, if_neg h4, if_pos ⟨hb, hover⟩]
    rfl
  refine ⟨?_, ?_⟩
  · rw [evaluate_reasons, hreasons]
  · rw [evaluate_verdict, hreasons]
    rfl

/-- Witness for `over_budget_reason_reports_cost_and_budget` at the
concrete over-budget input. -/
theorem over_budget_reason_reports_cost_and_budget_witness :
    (evaluate cexOverBudget).reasons =
      [Reason.budgetTooLow (totalCostOf cexOverBudget) (budgetOf cexOverBudget)] ∧
    (evaluate cexOverBudget).verdict = Verdict.unrealistic :=
  over_budget_reason_reports_cost_and_budget cexOverBudget
    (by norm_num [peopleOf, cexOverBudget])
    (by norm_num [minWeeksOf, complexityOf, minWeeksByComplexity, weeksOf, cexOverBudget])
    (by norm_num [budgetOf, cexOverBudget])
    (by norm_num [budgetOf, totalCostOf, weeklyCostOf, peopleOf, adjustedWeeksOf, weeksOf,
      complexityOf, complexityMultiplier, minWeeksByComplexity, hourlyRate,
      hoursPerWeekPerDev, cexOverBudget])

/-- Claim C5 counterexample: on an input where the budget condition and
the timeline condition fail together, the verdict is the same single
value `unrealistic` that a budget-only failure produces — there is no
distinct combined-cause verdict value. -/
theorem combined_failure_collapses_to_unrealistic :
    (evaluate cexCombined).reasons =
      [Reason.timelineTooShort Complexity.medium 6, Reason.budgetTooLow 13500 10000] ∧
    (evaluate cexCombined).verdict = Verdict.unrealistic ∧
    (evaluate cexCombined).verdict = (evaluate cexOverBudget).verdict := by
  refine ⟨?_, ?_, ?_⟩ <;>
    norm_num [evaluate, evalReasons, budgetOf, weeksOf, peopleOf, complexityOf, minWeeksOf,
      totalCostOf, weeklyCostOf, adjustedWeeksOf, complexityMultiplier, minWeeksByComplexity,
      hourlyRate, hoursPerWeekPerDev, cexCombined, cexOverBudget]

/-- Claim C5 (amended): when the budget and the timeline condition fail
together (with positive headcount), the verdict collapses to the single
unfavourable value and the combined cause is reported only through the
reasons list, which then contains both the timeline reason and the budget
reason, in that order. -/
theorem combined_failure_reasons (f : ProductFormData)
    (hp : 0 < peopleOf f) (hw0 : 0 < weeksOf f) (hshort : weeksOf f < minWeeksOf f)
    (hb : 0 < budgetOf f) (hover : budgetOf f < totalCostOf f) :
    (evaluate f).reasons =
      [Reason.timelineTooShort (complexityOf f) (minWeeksOf f),
       Reason.budgetTooLow (totalCostOf f) (budgetOf f)] ∧
    (evaluate f).verdict = Verdict.unrealistic := by
  have h1 : ¬ peopleOf f ≤ 0 := not_le.mpr hp
  have h2 : ¬ weeksOf f ≤ 0 := not_le.mpr hw0
  have h3 : ¬ budgetOf f ≤ 0 := not_le.mpr hb
  have hreasons : evalReasons f =
      [Reason.timelineTooShort (complexityOf f) (minWeeksOf f),
       Reason.budgetTooLow (totalCostOf f) (budgetOf f)] := by
    unfold evalReasons
    rw [if_neg h1, if_neg h2, if_neg h3, if_pos ⟨hw0, hshort⟩, if_pos ⟨hb, hover⟩]
    rfl
  refine ⟨?_, ?_⟩
  · rw [evaluate_reasons, hreasons]
  · rw [evaluate_verdict, hreasons]
    rfl

/-- Witness for `combined_failure_reasons` at the concrete combined
failure input. -/
theorem combined_failure_reasons_witness :
    (evaluate cexCombined).reasons =
      [Reason.timelineTooShort (complexityOf cexCombined) (minWeeksOf cexCombined),
       Reason.budgetTooLow (totalCostOf cexCombined) (budgetOf cexCombined)] ∧
    (evaluate cexCombined).verdict = Verdict.unrealistic :=
  combined_failure_reasons cexCombined
    (by norm_num [peopleOf, cexCombined])
    (by norm_num [weeksOf, cexCombined])
    (by norm_num [minWeeksOf, complexityOf, minWeeksByComplexity, weeksOf, cexCombined])
    (by norm_num [budgetOf, cexCombined])
    (by norm_num [budgetOf, totalCostOf, weeklyCostOf, peopleOf, adjustedWeeksOf, weeksOf,
      complexityOf, complexityMultiplier, minWeeksByComplexity, hourlyRate,
      hoursPerWeekPerDev, cexCombined])

/-- Claim C9 counterexample: with headcount `-1` (and otherwise healthy
inputs) the estimated total cost is `-18000`, not `0`, while the verdict
is still `unrealistic`. -/
theorem negative_headcount_nonzero_total_cost :
    peopleOf cexNegHeadcount ≤ 0 ∧
    (evaluate cexNegHeadcount).estimates.totalCost = -18000 ∧
    (evaluate cexNegHeadcount).estimates.totalCost ≠ 0 ∧
    (evaluate cexNegHeadcount).verdict = Verdict.unrealistic := by
  refine ⟨?_, ?_, ?_, ?_⟩ <;>
    norm_num [evaluate, evalReasons, budgetOf, weeksOf, peopleOf, complexityOf, minWeeksOf,
      totalCostOf, weeklyCostOf, adjustedWeeksOf, complexityMultiplier, minWeeksByComplexity,
      hourlyRate, hoursPerWeekPerDev, cexNegHeadcount]

/-- Claim C9 (amended): whenever headcount, timeline weeks or budget is
missing, zero or negative the verdict is `unrealistic`; when the
headcount is missing or exactly zero the estimated total cost is `0`
(for strictly negative headcount it is negative, not zero). -/
theorem degenerate_inputs_unrealistic (f : ProductFormData)
    (h : peopleOf f ≤ 0 ∨ weeksOf f ≤ 0 ∨ budgetOf f ≤ 0) :
    (evaluate f).verdict = Verdict.unrealistic ∧
    (peopleOf f = 0 → (evaluate f).estimates.totalCost = 0) := by
  constructor
  · rcases verdict_cases (evaluate f).verdict with hv | hv
    · exfalso
      rw [evaluate_realistic_iff_nil, evalReasons_eq_nil_iff] at hv
      obtain ⟨hp, hw, hb, -, -⟩ := hv
      rcases h with h | h | h
      · exact absurd h (not_le.mpr hp)
      · exact absurd h (not_le.mpr hw)
      · exact absurd h (not_le.mpr hb)
    · exact hv
  · intro hp0
    rw [evaluate_totalCost]
    unfold totalCostOf weeklyCostOf
    rw [hp0]
    ring

/-- Witness for `degenerate_inputs_unrealistic` at headcount zero. -/
theorem degenerate_inputs_unrealistic_witness :
    (evaluate wDegenerate).verdict = Verdict.unrealistic ∧
    (peopleOf wDegenerate = 0 → (evaluate wDegenerate).estimates.totalCost = 0) :=
  degenerate_inputs_unrealistic wDegenerate
    (Or.inl (by norm_num [peopleOf, wDegenerate]))

/-- Claim C10: the seven budget fractions of the generated budget CSV sum
exactly to `1`, so the fractional line items sum exactly to the entered
budget `b`; the full numeric column sums to `b + 150`, the only
budget-independent costs being the two fixed monthly items totalling
`150` (Gemini API 100, Firebase Auth 50). -/
theorem budget_csv_coefficients_exact (b : ℚ) :
    budgetCoefficients.sum = 1 ∧
    budgetCoefficients.length = 7 ∧
    (budgetCoefficients.map (fun c => b * c)).sum = b ∧
    csvNumericTotal (budgetCsvRows b) = b + 150 ∧
    csvNumericTotal (budgetCsvRows 0) = 150 := by
  refine ⟨?_, rfl, ?_, ?_, ?_⟩
  · norm_num [budgetCoefficients]
  · norm_num [budgetCoefficients]
    ring
  · simp only [csvNumericTotal, budgetCsvRows, rowNumeric, List.filterMap_cons,
      List.filterMap_nil, List.sum_cons, List.sum_nil]
    ring
  · simp only [csvNumericTotal, budgetCsvRows, rowNumeric, List.filterMap_cons,
      List.filterMap_nil, List.sum_cons, List.sum_nil]
    norm_num

/-! ### Allocator lemmas -/

lemma foldl_allocStep_inv (staff : List StaffMember)
    (P : List Assignment × (ℕ → ℚ) → Prop)
    (hstep : ∀ st t, P st → P (allocStep staff st t)) :
    ∀ (ts : List SpecTask) (st : List Assignment × (ℕ → ℚ)),
      P st → P (ts.foldl (allocStep staff) st) := by
  intro ts
  induction ts with
  | nil => intro st h; exact h
  | cons t ts ih => intro st h; exact ih _ (hstep st t h)

lemma foldl_choice_mem (f : Option ℕ → ℕ → Option ℕ)
    (hf : ∀ b j, f b j = some j ∨ f b j = b) :
    ∀ (l : List ℕ) (acc : Option ℕ) (i : ℕ),
      l.foldl f acc = some i → acc = some i ∨ i ∈ l := by
  intro l
  induction l with
  | nil => intro acc i h; exact Or.inl h
  | cons j l ih =>
    intro acc i h
    rcases ih (f acc j) i h with h1 | h1
    · rcases hf acc j with h2 | h2
      · rw [h2] at h1
        obtain rfl : j = i := Option.some.inj h1
        exact Or.inr (List.mem_cons_self _ _)
      · rw [h2] at h1
        exact Or.inl h1
    · exact Or.inr (List.mem_cons_of_mem j h1)

lemma chooseStaff_mem (t : SpecTask) (staff : List StaffMember) (loads : ℕ → ℚ) (i : ℕ)
    (h : chooseStaff t staff loads = some i) : i ∈ candidateIdx t staff loads := by
  have hf : ∀ (b : Option ℕ) (j : ℕ),
      (match b with
        | none => some j
        | some c => if allocBetter t staff loads j c then some j else some c) = some j ∨
      (match b with
        | none => some j
        | some c => if allocBetter t staff loads j c then some j else some c) = b := by
    intro b j
    cases b with
    | none => exact Or.inl rfl
    | some c =>
      show (if allocBetter t staff loads j c then some j else some c) = some j ∨
        (if allocBetter t staff loads j c then some j else some c) = some c
      by_cases hb : allocBetter t staff loads j c = true
      · rw [if_pos hb]
        exact Or.inl rfl
      · rw [if_neg hb]
        exact Or.inr rfl
  unfold chooseStaff at h
  rcases foldl_choice_mem _ hf _ none i h with h1 | h1
  · exact absurd h1 (by simp)
  · exact h1

lemma candidateIdx_spec (t : SpecTask) (staff : List StaffMember) (loads : ℕ → ℚ) (i : ℕ)
    (h : i ∈ candidateIdx t staff loads) :
    i < staff.length ∧
      loads i + t.estimated_hours ≤ (staff.getD i default).capacity_hours := by
  unfold candidateIdx at h
  rw [List.mem_filter] at h
  obtain ⟨hr, hp⟩ := h
  exact ⟨List.mem_range.mp hr, of_decide_eq_true hp⟩

lemma assignedHours_append (l1 l2 : List Assignment) (i : ℕ) :
    assignedHours (l1 ++ l2) i = assignedHours l1 i + assignedHours l2 i := by
  unfold assignedHours
  rw [List.filter_append, List.map_append, List.sum_append]

lemma assignedHours_single (a : Assignment) (i : ℕ) :
    assignedHours [a] i =
      if a.assignee_ref = some i then a.task.estimated_hours else 0 := by
  unfold assignedHours
  by_cases h : a.assignee_ref = some i
  · simp [List.filter_cons, h]
  · simp [List.filter_cons, h]

lemma allocStep_preserves (staff : List StaffMember) (st : List Assignment × (ℕ → ℚ))
    (t : SpecTask) (h : AllocInv staff st) : AllocInv staff (allocStep staff st t) := by
  obtain ⟨h1, h2⟩ := h
  unfold allocStep
  cases hch : chooseStaff t staff st.2 with
  | none =>
    refine ⟨?_, h2⟩
    intro i
    rw [assignedHours_append, assignedHours_single]
    simp [h1 i]
  | some j =>
    obtain ⟨hjlen, hjcap⟩ :=
      candidateIdx_spec t staff st.2 j (chooseStaff_mem t staff st.2 j hch)
    refine ⟨?_, ?_⟩
    · intro i
      rw [assignedHours_append, assignedHours_single]
      by_cases hij : i = j
      · subst hij
        simp [h1 i]
      · have hji : ¬ j = i := fun hji => hij hji.symm
        simp [hij, hji, h1 i]
    · intro i hi
      by_cases hij : i = j
      · subst hij
        simpa using hjcap
      · simpa [hij] using h2 i hi

lemma allocate_inv (staff : List StaffMember) (tasks : List SpecTask)
    (hcap : ∀ s ∈ staff, 0 ≤ s.capacity_hours) :
    AllocInv staff ((sortTasks tasks).foldl (allocStep staff) ([], fun _ => 0)) := by
  apply foldl_allocStep_inv staff _ (fun st t h => allocStep_preserves staff st t h)
  refine ⟨?_, ?_⟩
  · intro i
    simp [assignedHours]
  · intro i hi
    have hmem : staff.getD i default ∈ staff := by
      rw [List.getD_eq_getElem staff default hi]
      exact List.getElem_mem hi
    exact hcap _ hmem

lemma allocStep_cost_zero (staff : List StaffMember) (st : List Assignment × (ℕ → ℚ))
    (t : SpecTask)
    (h : ∀ a ∈ st.1, a.assignee_ref = none → a.salary_cost = 0) :
    ∀ a ∈ (allocStep staff st t).1, a.assignee_ref = none → a.salary_cost = 0 := by
  unfold allocStep
  cases hch : chooseStaff t staff st.2 with
  | none =>
    intro a ha
    rcases List.mem_append.mp ha with ha | ha
    · exact h a ha
    · obtain rfl := List.mem_singleton.mp ha
      intro
      rfl
  | some j =>
    intro a ha
    rcases List.mem_append.mp ha with ha | ha
    · exact h a ha
    · obtain rfl := List.mem_singleton.mp ha
      intro hnone
      exact absurd hnone (by simp)

lemma allocate_unassigned_cost_zero (staff : List StaffMember) (tasks : List SpecTask) :
    ∀ a ∈ allocate staff tasks, a.assignee_ref = none → a.salary_cost = 0 := by
  unfold allocate
  have := foldl_allocStep_inv staff
    (fun st => ∀ a ∈ st.1, a.assignee_ref = none → a.salary_cost = 0)
    (fun st t h => allocStep_cost_zero staff st t h)
    (sortTasks tasks) ([], fun _ => 0) (by intro a ha; simp at ha)
  exact this

lemma staffingCost_eq_total_sum (asgs : List Assignment)
    (h : ∀ a ∈ asgs, a.assignee_ref = none → a.salary_cost = 0) :
    staffingCost asgs = (asgs.map (fun a => a.salary_cost)).sum := by
  induction asgs with
  | nil => rfl
  | cons a l ih =>
    have hl : ∀ b ∈ l, b.assignee_ref = none → b.salary_cost = 0 :=
      fun b hb => h b (List.mem_cons_of_mem a hb)
    unfold staffingCost at ih ⊢
    cases ha : a.assignee_ref with
    | none =>
      have hc : a.salary_cost = 0 := h a (List.mem_cons_self a l) ha
      simp [List.filter_cons, ha, ih hl, hc]
    | some j =>
      simp [List.filter_cons, ha, ih hl]

/-! ### Claim theorems on the spec-modelled engine -/

/-- Claim C3: for every pipeline run, the reported total cost equals the
sum of the individually computed per-task staffing costs plus the sum of
all fixed budget line items — the reconciler sums assigned-task costs,
and unassigned tasks carry cost zero, so nothing is double counted or
omitted. -/
theorem total_cost_eq_task_costs_plus_line_items (inputs : PlanInputs) :
    (runPipeline inputs).total_cost =
      ((runPipeline inputs).assignments.map (fun a => a.salary_cost)).sum +
        lineItemsTotal inputs.line_items := by
  have h := allocate_unassigned_cost_zero inputs.staff inputs.tasks
  simp only [runPipeline, reconcileTotal]
  rw [staffingCost_eq_total_sum _ h]

/-- Claim C4: the analysis pipeline is deterministic — both the frontend
evaluation and the spec-modelled planning pipeline are pure functions of
their inputs, so running either twice on a fixed input yields identical
results. -/
theorem pipeline_two_run_equality (f : ProductFormData) (inputs : PlanInputs) :
    evaluate f = evaluate f ∧ runPipeline inputs = runPipeline inputs :=
  ⟨rfl, rfl⟩

/-- Claim C6: for every staff member, the total estimated hours of the
tasks the allocator assigns to that member never exceed the member's
capacity ceiling; a task that fits no member's remaining capacity is left
unassigned rather than assigned in violation. -/
theorem allocator_capacity_invariant (staff : List StaffMember) (tasks : List SpecTask)
    (hcap : ∀ s ∈ staff, 0 ≤ s.capacity_hours) (i : ℕ) (hi : i < staff.length) :
    assignedHours (allocate staff tasks) i ≤ (staff.getD i default).capacity_hours := by
  obtain ⟨h1, h2⟩ := allocate_inv staff tasks hcap
  unfold allocate
  rw [h1 i]
  exact h2 i hi

/-- Witness for `allocator_capacity_invariant` on a concrete roster and
task list that overfills one member. -/
theorem allocator_capacity_invariant_witness :
    assignedHours (allocate wStaff wTasks) 0 ≤ (wStaff.getD 0 default).capacity_hours :=
  allocator_capacity_invariant wStaff wTasks
    (by intro s hs; fin_cases hs <;> norm_num) 0 (by norm_num [wStaff])

/-- Claim C7: applying the same `adjust_budget` revision (same target
value) twice in a row yields the same plan as applying it once. -/
theorem adjust_budget_idempotent (st : Session) (v : ℚ)
    (h : st.status = SessionStatus.drafting) :
    ((applyInstruction st (Instruction.adjust_budget v)).bind
        (fun s => applyInstruction s (Instruction.adjust_budget v))).map
        (fun s => s.current_plan)
      = (applyInstruction st (Instruction.adjust_budget v)).map
        (fun s => s.current_plan) := by
  simp [applyInstruction, h, Except.bind, Except.map]

/-- Witness for `adjust_budget_idempotent` on a concrete drafting
session. -/
theorem adjust_budget_idempotent_witness :
    ((applyInstruction wSessionDrafting (Instruction.adjust_budget 150000)).bind
        (fun s => applyInstruction s (Instruction.adjust_budget 150000))).map
        (fun s => s.current_plan)
      = (applyInstruction wSessionDrafting (Instruction.adjust_budget 150000)).map
        (fun s => s.current_plan) :=
  adjust_budget_idempotent wSessionDrafting 150000 rfl

/-- Claim C8: once a session's status is `confirmed`, every mutation
instruction is rejected with `SessionLocked`; no successor session is
produced, so the committed plan is untouched by the rejected attempt. -/
theorem confirmed_session_locks_mutations (st : Session) (ins : Instruction)
    (h : st.status = SessionStatus.confirmed) (hm : ins.isMutation = true) :
    applyInstruction st ins = Except.error SessionError.SessionLocked := by
  unfold applyInstruction
  rw [if_pos ⟨h, hm⟩]

/-- Witness for `confirmed_session_locks_mutations`: an `adjust_budget`
after `confirm` is rejected. -/
theorem confirmed_session_locks_mutations_witness :
    applyInstruction wSessionConfirmed (Instruction.adjust_budget 150000)
      = Except.error SessionError.SessionLocked :=
  confirmed_session_locks_mutations wSessionConfirmed
    (Instruction.adjust_budget 150000) rfl rfl
